import Mathlib

/-!
# opencensus-jaeger example: a verification development

A shallow embedding of `main.go`: the `main` function, the `doWork`
function it calls ten times, and the library calls they make
(`encoding/binary.ReadVarint` over a `bytes.Buffer`, the
`go.opencensus.io/trace` span operations and the Jaeger exporter handle).

Stateful code is written as explicit state passing over a `World` that
also keeps the ordered log of the calls that were made, so that temporal
statements ("ended before flush") can be read off the log.
-/

namespace OpencensusJaeger

/-! ## Bytes, buffers and the varint decode of `encoding/binary` -/

/-- A Go `byte`: an integer in `[0, 256)`. -/
abbrev Byte := Fin 256

/-- The error values that reading a varint from a `bytes.Buffer` can
return: `io.EOF`, `io.ErrUnexpectedEOF` and the `errOverflow` of
`encoding/binary`. -/
inductive GoError where
  | EOF
  | ErrUnexpectedEOF
  | errOverflow
  deriving DecidableEq, Repr

/-- The text of an error value (`err.Error()` in Go). -/
def GoError.Error : GoError → String
  | .EOF => "EOF"
  | .ErrUnexpectedEOF => "unexpected EOF"
  | .errOverflow => "binary: varint overflows a 64-bit integer"

/-- `binary.MaxVarintLen64`: the maximum length of a varint-encoded
64-bit integer. -/
def MaxVarintLen64 : Nat := 10

/-- `(*bytes.Buffer).ReadByte`: the next unread byte and the buffer after
it, or `io.EOF` when nothing is left. The buffer is its unread bytes. -/
def ReadByte (buf : List Byte) : Except GoError Byte × List Byte :=
  match buf with
  | [] => (.error .EOF, [])
  | b :: rest => (.ok b, rest)

/-- What `binary.ReadUvarint` leaves behind: the `uint64` it returns, the
error it returns (`none` for `nil`) and the unread rest of the buffer. -/
structure UvarintResult where
  x : Nat
  err : Option GoError
  rest : List Byte
  deriving DecidableEq, Repr

/-- The loop of `binary.ReadUvarint`,
`for i := 0; i < MaxVarintLen64; i++ { ... }`, entered with `n` iterations
left (`n = MaxVarintLen64 - i`), the accumulator `x` (a `uint64`, so every
store is taken modulo `2^64`) and the shift `s`. Leaving the loop without
a terminating byte is `return x, errOverflow`. -/
def readUvarintLoop : Nat → Nat → Nat → Nat → List Byte → UvarintResult
  | 0, _, x, _, buf => ⟨x, some .errOverflow, buf⟩
  | n + 1, i, x, s, buf =>
    match ReadByte buf with
    | (.error err, buf') =>
      ⟨x, some (if 0 < i ∧ err = .EOF then .ErrUnexpectedEOF else err), buf'⟩
    | (.ok b, buf') =>
      if b.val < 0x80 then
        if i = MaxVarintLen64 - 1 ∧ 1 < b.val then
          ⟨x, some .errOverflow, buf'⟩
        else
          ⟨(x ||| (b.val <<< s)) % 2 ^ 64, none, buf'⟩
      else
        readUvarintLoop n (i + 1) ((x ||| ((b.val &&& 0x7f) <<< s)) % 2 ^ 64) (s + 7) buf'

/-- `binary.ReadUvarint` over a buffer: `x = 0`, `s = 0`, at most
`MaxVarintLen64` bytes are read. (Releases of Go before the loop was
bounded keep reading and return `io.EOF` where this returns
`io.ErrUnexpectedEOF`; they fail on the same inputs and return the same
number.) -/
def ReadUvarint (buf : List Byte) : UvarintResult :=
  readUvarintLoop MaxVarintLen64 0 0 0 buf

/-- What `binary.ReadVarint` leaves behind: the `int64` it returns, the
error it returns (`none` for `nil`) and the unread rest of the buffer. -/
structure VarintResult where
  num : Int
  err : Option GoError
  rest : List Byte
  deriving DecidableEq, Repr

/-- `binary.ReadVarint`: read an unsigned varint, then undo the zig-zag
encoding: `x := int64(ux >> 1); if ux&1 != 0 { x = ^x }`. The value is
computed and returned also when `ReadUvarint` reports an error. -/
def ReadVarint (buf : List Byte) : VarintResult :=
  let r := ReadUvarint buf
  let x : Int := ((r.x >>> 1 : Nat) : Int)
  let x := if r.x &&& 1 ≠ 0 then ~~~x else x
  ⟨x, r.err, r.rest⟩

/-- The buffer that `doWork` builds with `bytes.NewBuffer`. -/
def workBytes : List Byte := [0xFF, 0x00, 0x00, 0x00]

/-! ## The tracing library: configuration, spans and the exporter handle -/

/-- A span identifier. The library draws identifiers at random; here the
spans are numbered in the order `StartSpan` creates them, which keeps them
distinct. -/
abbrev SpanID := Nat

/-- `trace.Sampler`: `AlwaysSample()`, `NeverSample()`, or a
`ProbabilitySampler` (the library's initial default) whose outcome on the
randomly drawn trace identifier is `draw`. -/
inductive Sampler where
  | AlwaysSample
  | NeverSample
  | ProbabilitySampler (draw : Bool)
  deriving DecidableEq, Repr

/-- The sampling decision of a sampler for a new root span. -/
def Sampler.Sample : Sampler → Bool
  | .AlwaysSample => true
  | .NeverSample => false
  | .ProbabilitySampler draw => draw

/-- The `trace.Config` value passed to `trace.ApplyConfig`, as `main`
uses it: only `DefaultSampler` is ever set; `none` is Go's `nil` (field
left unset). -/
structure Config where
  DefaultSampler : Option Sampler
  deriving DecidableEq, Repr

/-- The library default `DefaultMaxAnnotationEventsPerSpan`: the capacity
of a span's queue of annotation events. `main` never changes it. -/
def DefaultMaxAnnotationEventsPerSpan : Nat := 32

/-- `trace.Status`. -/
structure Status where
  Code : Int
  Message : String
  deriving DecidableEq, Repr

/-- `trace.StatusCodeOK`. -/
def StatusCodeOK : Int := 0

/-- `trace.StatusCodeUnknown`. -/
def StatusCodeUnknown : Int := 2

/-- The typed value of a `trace.Attribute`. -/
inductive AttributeValue where
  | bool (v : Bool)
  | int64 (v : Int)
  | string (v : String)
  deriving DecidableEq, Repr

/-- `trace.Attribute`: a key and a typed value. -/
structure Attribute where
  key : String
  value : AttributeValue
  deriving DecidableEq, Repr

/-- `trace.Int64Attribute(key, value)`. -/
def Int64Attribute (key : String) (value : Int) : Attribute :=
  ⟨key, .int64 value⟩

/-- `copyAttributes(m, attributes)`: `m[a.key] = a.value` for each
attribute in order; the map is kept as an association list in which a
later store replaces an earlier one under the same key. -/
def copyAttributes (m : List Attribute) (attributes : List Attribute) : List Attribute :=
  attributes.foldl (fun m a => m.filter (fun e => e.key ≠ a.key) ++ [a]) m

/-- One `trace.Annotation` event of a span (its timestamp left out): the
description and the attribute map. -/
structure AnnotationEvent where
  Message : String
  Attributes : List Attribute
  deriving DecidableEq, Repr

/-- `trace.SpanContext` as far as `StartSpan` reads it: the span's id and
the sampled bit of its trace options. -/
structure SpanContext where
  SpanID : SpanID
  IsSampled : Bool
  deriving DecidableEq, Repr

/-- `trace.SpanData`: the recorded data of a span (timestamps left out).
`ParentSpanID = none` is a root span. -/
structure SpanData where
  SpanContext : SpanContext
  ParentSpanID : Option SpanID
  Name : String
  Status : Status
  Annotations : List AnnotationEvent
  deriving DecidableEq, Repr

/-- The library's span object: its context, its recorded data (`none` is
Go's `nil`: the span does not record events), its bounded queue of
annotation events, and whether its `endOnce` has fired. -/
structure Span where
  spanContext : SpanContext
  data : Option SpanData
  annotations : List AnnotationEvent
  ended : Bool
  deriving DecidableEq, Repr

/-- A `context.Context` as far as tracing reads it: the span context of
the span it carries, if any (`trace.FromContext`). -/
abbrev Context := Option SpanContext

/-- `context.Background()`: carries no span. -/
def Background : Context := none

/-- The Jaeger exporter handle: the spans handed to `ExportSpan` that no
`Flush` call has covered yet, and the spans that a `Flush` call has
covered (sent on by the time that call returned). The bundler may send a
buffered span earlier on its own thresholds; the model records what
`Flush` guarantees. -/
structure Exporter where
  buffered : List SpanData
  sent : List SpanData
  deriving DecidableEq, Repr

/-- The calls the program makes, in the order it makes them. The log is
bookkeeping of the model: it records order, nothing reads it. -/
inductive Event where
  | Fatalf (msg : String)
  | RegisterExporter
  | ApplyConfig
  | StartSpan (span : SpanID) (name : String) (parent : Option SpanID)
  | SetStatus (span : SpanID) (status : Status)
  | Annotate (span : SpanID) (event : AnnotationEvent)
  | End (span : SpanID)
  | ExportSpan (span : SpanID)
  | Flush
  | Println (line : String)
  | Sleep (ms : Nat)
  deriving DecidableEq, Repr

/-- The state of the process: the default sampler of the current trace
configuration, the exporter
handle `je` and whether it is registered with the trace package, every
span created so far (the span with id `i` at position `i`), the log of
calls, and the exit status once the process has been terminated. -/
structure World where
  DefaultSampler : Sampler
  je : Exporter
  registered : Bool
  spans : List Span
  log : List Event
  exit : Option Nat
  deriving DecidableEq, Repr

/-- The state at process start: the library's initial default sampler is
a probability sampler, nothing is registered, no span exists. -/
def World.init (draw : Bool) : World :=
  { DefaultSampler := .ProbabilitySampler draw
    je := ⟨[], []⟩
    registered := false
    spans := []
    log := []
    exit := none }

/-- Append a call to the log. -/
def World.record (w : World) (e : Event) : World :=
  { w with log := w.log ++ [e] }

/-- Apply `f` to the element at position `i` of a list (a store through
the span pointer); a position past the end changes nothing. -/
def modifyAt {α : Type} (f : α → α) : Nat → List α → List α
  | _, [] => []
  | 0, a :: l => f a :: l
  | i + 1, a :: l => a :: modifyAt f i l

/-- `log.Fatalf`: print the message and `os.Exit(1)`. -/
def Fatalf (msg : String) (w : World) : World :=
  { w.record (.Fatalf msg) with exit := some 1 }

/-- `trace.RegisterExporter(je)`. -/
def RegisterExporter (w : World) : World :=
  { w.record .RegisterExporter with registered := true }

/-- `trace.ApplyConfig(cfg)`: the fields of `cfg` that are set replace the
current ones. -/
def ApplyConfig (cfg : Config) (w : World) : World :=
  let sampler : Sampler :=
    match cfg.DefaultSampler with
    | some s => s
    | none => w.DefaultSampler
  { w.record .ApplyConfig with DefaultSampler := sampler }

/-- The sampling decision `StartSpan` takes for a span started from
`ctx`: a child of a local span keeps its parent's decision, for a root
span the default sampler is consulted. -/
def shouldSample (ctx : Context) (w : World) : Bool :=
  match ctx with
  | some parent => parent.IsSampled
  | none => w.DefaultSampler.Sample

/-- `trace.StartSpan(ctx, name)`: the new span is a child of the span that
`ctx` carries and keeps that span's sampling decision, or is a root span,
for which the default sampler decides. A sampled span records data: its
name and, if it has a parent, the parent's span id. Returns the context
carrying the new span, the span (its id) and the new state. -/
def StartSpan (ctx : Context) (name : String) (w : World) : Context × SpanID × World :=
  let id : SpanID := w.spans.length
  let sampled : Bool := shouldSample ctx w
  let sc : SpanContext := ⟨id, sampled⟩
  let parentID : Option SpanID := ctx.map (fun parent => parent.SpanID)
  let data : Option SpanData :=
    if sampled then some ⟨sc, parentID, name, ⟨StatusCodeOK, ""⟩, []⟩ else none
  let s : Span := ⟨sc, data, [], false⟩
  (some sc, id, { w.record (.StartSpan id name parentID) with spans := w.spans ++ [s] })

/-- `span.SetStatus(status)`: no effect on a span that does not record
events; otherwise `s.data.Status = status`. -/
def SetStatus (span : SpanID) (status : Status) (w : World) : World :=
  let set : Span → Span := fun s =>
    { s with data := s.data.map (fun d => { d with Status := status }) }
  { w.record (.SetStatus span status) with spans := modifyAt set span w.spans }

/-- `evictedQueue.add`: a full queue drops its first item. -/
def evictedQueueAdd {α : Type} (capacity : Nat) (queue : List α) (value : α) : List α :=
  if queue.length = capacity then queue.tail ++ [value] else queue ++ [value]

/-- `span.Annotate(attributes, str)`: no effect on a span that does not
record events; otherwise one annotation event with the description and
the attribute map is added to the span's queue. -/
def Annotate (span : SpanID) (attributes : List Attribute) (str : String) (w : World) : World :=
  let a : List Attribute := if attributes.length ≠ 0 then copyAttributes [] attributes else []
  let ev : AnnotationEvent := ⟨str, a⟩
  let add : Span → Span := fun s =>
    match s.data with
    | none => s
    | some _ =>
      { s with annotations := evictedQueueAdd DefaultMaxAnnotationEventsPerSpan s.annotations ev }
  { w.record (.Annotate span ev) with spans := modifyAt add span w.spans }

/-- `span.makeSpanData()`: a copy of the span's data with the queued
annotation events filled in. -/
def makeSpanData (s : Span) (d : SpanData) : SpanData :=
  { d with Annotations := s.annotations }

/-- `(*jaeger.Exporter).ExportSpan`: the span data goes into the bundler. -/
def Exporter.ExportSpan (e : Exporter) (sd : SpanData) : Exporter :=
  { e with buffered := e.buffered ++ [sd] }

/-- `(*jaeger.Exporter).Flush`: returns once everything buffered has been
sent on. -/
def Exporter.Flush (e : Exporter) : Exporter :=
  { buffered := [], sent := e.sent ++ e.buffered }

/-- `span.End()`: no effect on a span that does not record events, and
through `endOnce` no effect after the first call; on the first call the
span data is made and, when the span is sampled and an exporter is
registered, handed to the exporter's `ExportSpan`. -/
def End (span : SpanID) (w : World) : World :=
  let w := w.record (.End span)
  match w.spans[span]? with
  | none => w
  | some s =>
    match s.data with
    | none => w
    | some d =>
      if s.ended then w
      else
        let w := { w with spans := modifyAt (fun s => { s with ended := true }) span w.spans }
        if s.spanContext.IsSampled ∧ w.registered then
          { w.record (.ExportSpan span) with je := w.je.ExportSpan (makeSpanData s d) }
        else w

/-- `je.Flush()` in `main`. -/
def Flush (w : World) : World :=
  { w.record .Flush with je := w.je.Flush }

/-- `fmt.Println(line)`. -/
def Println (line : String) (w : World) : World :=
  w.record (.Println line)

/-- `time.Sleep(ms * time.Millisecond)`. -/
def Sleep (ms : Nat) (w : World) : World :=
  w.record (.Sleep ms)

/-! ## The program: `doWork` and `main` -/

/-- The body of `doWork` with the contents of its buffer as a parameter:
start a child span of the span in `ctx`, defer `span.End()`, print, sleep,
decode a signed varint from the buffer, set the span status if the decode
returned an error, annotate the span with the decoded number, sleep; the
deferred `span.End()` runs last. -/
def doWorkOn (bytes : List Byte) (ctx : Context) (w : World) : World :=
  let (_, span, w) := StartSpan ctx "doWork" w
  let w := Println "doing busy work" w
  let w := Sleep 80 w
  let buf := bytes
  let r := ReadVarint buf
  let w :=
    match r.err with
    | some err => SetStatus span ⟨StatusCodeUnknown, err.Error⟩ w
    | none => w
  let w := Annotate span [Int64Attribute "bytes to int" r.num] "Invoking doWork" w
  let w := Sleep 20 w
  End span w

/-- `doWork(ctx)`: the buffer is `[]byte{0xFF, 0x00, 0x00, 0x00}`. -/
def doWork (ctx : Context) (w : World) : World :=
  doWorkOn workBytes ctx w

/-- The loop of `main`, `for i := 0; i < 10; i++ { doWork(ctx) }`, with
`n` iterations left. -/
def mainLoop (ctx : Context) : Nat → World → World
  | 0, w => w
  | n + 1, w => mainLoop ctx n (doWork ctx w)

/-- `main`. Its inputs are the outcome of `jaeger.NewExporter`
(`newExporterErr = none` is `err == nil`) and the draw of the library's
initial sampler. On an error `log.Fatalf` terminates the process, and no
deferred call runs. Otherwise the exporter is registered, sampling is set
to always, the root span is started from the background context with its
`End` deferred, `doWork` runs ten times, the exporter is flushed, and the
deferred `span.End()` runs as `main` returns. -/
def main (draw : Bool) (newExporterErr : Option String) : World :=
  let w := World.init draw
  match newExporterErr with
  | some err => Fatalf ("Failed to create jaeger exporter. Error " ++ err) w
  | none =>
    let w := RegisterExporter w
    let w := ApplyConfig ⟨some .AlwaysSample⟩ w
    let (ctx, span, w) := StartSpan Background "main" w
    let w := mainLoop ctx 10 w
    let w := Flush w
    End span w

/-! ## Reading the log -/

/-- Whether a logged call is a `StartSpan`. -/
def Event.isStartSpan : Event → Bool
  | .StartSpan _ _ _ => true
  | _ => false

/-- Whether a logged call is a `SetStatus`. -/
def Event.isSetStatus : Event → Bool
  | .SetStatus _ _ => true
  | _ => false

/-- Whether a logged call is an `Annotate` on the given span. -/
def Event.isAnnotateOf (span : SpanID) : Event → Bool
  | .Annotate s _ => s == span
  | _ => false

/-- The name and the parent recorded in a span's data. -/
def Span.nameAndParent (s : Span) : Option (String × Option SpanID) :=
  s.data.map (fun d => (d.Name, d.ParentSpanID))

/-- The status recorded in a span's data. -/
def Span.status (s : Span) : Option Status :=
  s.data.map (fun d => d.Status)

/-- The parent recorded in a span's data, if it has one. -/
def Span.parent (s : Span) : Option SpanID :=
  s.data.bind (fun d => d.ParentSpanID)

/-- In the log, `span.End()` of span `a` comes before that of span `b`. -/
def endsBefore (w : World) (a b : SpanID) : Prop :=
  w.log.indexOf (.End a) < w.log.indexOf (.End b)

instance (w : World) (a b : SpanID) : Decidable (endsBefore w a b) := by
  unfold endsBefore; infer_instance

/-- The annotation event `doWork` adds for a decoded number. -/
def workNote (num : Int) : AnnotationEvent :=
  ⟨"Invoking doWork", [⟨"bytes to int", .int64 num⟩]⟩

/-! ## What one call of `doWork` leaves behind -/

/-- The status `doWork` leaves on a recording span: the default status
when the decode returned no error, the error classification with the
error text otherwise. -/
def workStatus (err : Option GoError) : Status :=
  match err with
  | some e => ⟨StatusCodeUnknown, e.Error⟩
  | none => ⟨StatusCodeOK, ""⟩

/-- The calls `doWork` logs between starting its span and ending it. -/
def workCalls (id : SpanID) (parent : Option SpanID) (r : VarintResult) : List Event :=
  [.StartSpan id "doWork" parent, .Println "doing busy work", .Sleep 80] ++
  (match r.err with
    | some e => [Event.SetStatus id ⟨StatusCodeUnknown, e.Error⟩]
    | none => []) ++
  [.Annotate id (workNote r.num), .Sleep 20, .End id]

/-- The span `doWork` leaves behind when its span records events. -/
def workSpan (id : SpanID) (parent : Option SpanID) (r : VarintResult) : Span :=
  { spanContext := ⟨id, true⟩
    data := some ⟨⟨id, true⟩, parent, "doWork", workStatus r.err, []⟩
    annotations := [workNote r.num]
    ended := true }

/-- The span data `doWork` hands to a registered exporter. -/
def workSpanData (id : SpanID) (parent : Option SpanID) (r : VarintResult) : SpanData :=
  ⟨⟨id, true⟩, parent, "doWork", workStatus r.err, [workNote r.num]⟩

/-- The state in which `main` starts its root span: the exporter is
registered and sampling is set to always. -/
def readyWorld : World :=
  ApplyConfig ⟨some .AlwaysSample⟩ (RegisterExporter (World.init false))

/-- An eleven-byte encoding of zero: ten continuation bytes without
payload, then the terminating byte. -/
def overlongZero : List Byte :=
  [0x80, 0x80, 0x80, 0x80, 0x80, 0x80, 0x80, 0x80, 0x80, 0x80, 0x00]

/-! ## The varint format, stated independently of the decoder -/

/-- A byte with its high bit clear ends a varint. -/
def isTerminator (b : Byte) : Bool := b.val < 0x80

/-- Whether a terminating byte occurs in the byte sequence. -/
def terminated (bs : List Byte) : Bool := bs.any isTerminator

/-- The encoding at the head of a byte sequence: its bytes up to and
including the first terminating byte (all of it when there is none). -/
def encoding : List Byte → List Byte
  | [] => []
  | b :: bs => if isTerminator b then [b] else b :: encoding bs

/-- The number that a run of bytes stands for when each byte contributes
its low 7 bits, least-significant group first. -/
def groupsValue : List Byte → Nat
  | [] => 0
  | b :: bs => b.val % 128 + 128 * groupsValue bs

/-- The unsigned value encoded at the head of a byte sequence. -/
def encodedValue (bs : List Byte) : Nat := groupsValue (encoding bs)

/-- Zig-zag decoding of an unsigned number into a signed one:
`0, 1, 2, 3, 4, ...` stand for `0, -1, 1, -2, 2, ...`. -/
def zigzag (ux : Nat) : Int :=
  if ux % 2 = 0 then ((ux / 2 : Nat) : Int) else -((ux / 2 : Nat) : Int) - 1

/-! ## Theorems -/

/-! ### Stores through a span pointer -/

theorem modifyAt_append_length {α : Type} (f : α → α) (l : List α) (a : α) :
    modifyAt f l.length (l ++ [a]) = l ++ [f a] := by
  induction l with
  | nil => rfl
  | cons b l ih => simp [modifyAt, ih]

theorem getElem?_append_length {α : Type} (l : List α) (a : α) :
    (l ++ [a])[l.length]? = some a := by
  simp

/-! ### What one call of `doWork` does to the state -/

theorem doWorkOn_log (bytes : List Byte) (ctx : Context) (w : World) :
    (doWorkOn bytes ctx w).log =
      w.log ++ workCalls w.spans.length (ctx.map (fun p => p.SpanID)) (ReadVarint bytes) ++
        (if shouldSample ctx w = true ∧ w.registered = true
          then [.ExportSpan w.spans.length] else []) := by
  cases hs : shouldSample ctx w <;> cases hr : w.registered <;>
    cases he : (ReadVarint bytes).err <;>
    simp [doWorkOn, StartSpan, Println, Sleep, SetStatus, Annotate, End, World.record,
      workCalls, workNote, Int64Attribute, copyAttributes, modifyAt_append_length,
      evictedQueueAdd, DefaultMaxAnnotationEventsPerSpan, hs, hr, he]

theorem doWorkOn_spans (bytes : List Byte) (ctx : Context) (w : World)
    (hs : shouldSample ctx w = true) :
    (doWorkOn bytes ctx w).spans =
      w.spans ++ [workSpan w.spans.length (ctx.map (fun p => p.SpanID)) (ReadVarint bytes)] := by
  cases hr : w.registered <;> cases he : (ReadVarint bytes).err <;>
    simp [doWorkOn, StartSpan, Println, Sleep, SetStatus, Annotate, End, World.record,
      workSpan, workStatus, workNote, Int64Attribute, copyAttributes,
      modifyAt_append_length, evictedQueueAdd, DefaultMaxAnnotationEventsPerSpan, hs, hr, he]

theorem doWorkOn_je (bytes : List Byte) (ctx : Context) (w : World)
    (hs : shouldSample ctx w = true) :
    (doWorkOn bytes ctx w).je =
      if w.registered = true then
        ⟨w.je.buffered ++
          [workSpanData w.spans.length (ctx.map (fun p => p.SpanID)) (ReadVarint bytes)],
          w.je.sent⟩
      else w.je := by
  cases hr : w.registered <;> cases he : (ReadVarint bytes).err <;>
    simp [doWorkOn, StartSpan, Println, Sleep, SetStatus, Annotate, End, World.record,
      workSpanData, workStatus, workNote, Int64Attribute, copyAttributes,
      modifyAt_append_length, evictedQueueAdd, DefaultMaxAnnotationEventsPerSpan,
      makeSpanData, Exporter.ExportSpan, hs, hr, he]

theorem doWorkOn_frame (bytes : List Byte) (ctx : Context) (w : World) :
    (doWorkOn bytes ctx w).exit = w.exit ∧
    (doWorkOn bytes ctx w).registered = w.registered ∧
    (doWorkOn bytes ctx w).DefaultSampler = w.DefaultSampler := by
  cases hs : shouldSample ctx w <;> cases hr : w.registered <;>
    cases he : (ReadVarint bytes).err <;>
    simp [doWorkOn, StartSpan, Println, Sleep, SetStatus, Annotate, End, World.record,
      modifyAt_append_length, hs, hr, he]

theorem modifyAt_map_eq {α β : Type} (g : α → β) (f : α → α) (h : ∀ a, g (f a) = g a) :
    ∀ (i : Nat) (l : List α), (modifyAt f i l).map g = l.map g := by
  intro i l
  induction l generalizing i with
  | nil => cases i <;> rfl
  | cons a l ih =>
    cases i with
    | zero => simp [modifyAt, h]
    | succ i => simp [modifyAt, ih]

/-! ### The varint decoder against the format -/

theorem byte_and_0x7f (b : Byte) : b.val &&& 0x7f = b.val % 128 :=
  Nat.and_pow_two_sub_one_eq_mod b.val 7

theorem lor_shiftLeft_eq_add (x b i : Nat) (hx : x < 128 ^ i) :
    x ||| (b <<< (7 * i)) = x + 128 ^ i * b := by
  have h128 : (128 : Nat) ^ i = 2 ^ (7 * i) := by rw [pow_mul]; norm_num
  rw [h128] at hx ⊢
  rw [Nat.shiftLeft_eq, Nat.lor_comm, Nat.mul_comm b, ← Nat.mul_add_lt_is_or hx, Nat.add_comm]

theorem groupsValue_lt (bs : List Byte) : groupsValue bs < 128 ^ bs.length := by
  induction bs with
  | nil => simp [groupsValue]
  | cons b bs ih =>
    have hb : b.val % 128 < 128 := Nat.mod_lt _ (by norm_num)
    simp only [groupsValue, List.length_cons, pow_succ]
    omega

theorem groupsValue_append (pre : List Byte) (t : Byte) :
    groupsValue (pre ++ [t]) = groupsValue pre + 128 ^ pre.length * (t.val % 128) := by
  induction pre with
  | nil => simp [groupsValue]
  | cons b pre ih =>
    rw [List.cons_append]
    simp only [groupsValue, List.length_cons, pow_succ]
    rw [ih]
    ring

/-- The loop on a buffer without terminating byte returns an error. -/
theorem readUvarintLoop_unterminated (n : Nat) :
    ∀ (i x s : Nat) (bs : List Byte), (∀ b ∈ bs, 0x80 ≤ b.val) →
      (readUvarintLoop n i x s bs).err ≠ none := by
  induction n with
  | zero => intro i x s bs _; simp [readUvarintLoop]
  | succ n ih =>
    intro i x s bs h
    cases bs with
    | nil =>
      simp only [readUvarintLoop, ReadByte]
      split <;> simp
    | cons b bs =>
      have hb : ¬ b.val < 0x80 := by
        have := h b (List.mem_cons_self _ _); omega
      simp only [readUvarintLoop, ReadByte, hb, if_false]
      exact ih _ _ _ bs (fun c hc => h c (List.mem_cons_of_mem _ hc))

/-- The loop on a buffer that starts with continuation bytes `pre` and a
terminating byte `t`: with the terminating byte inside the length bound
and no overflow in the tenth byte, the groups are added up; otherwise the
loop reports an overflow. -/
theorem readUvarintLoop_terminated (pre : List Byte) :
    ∀ (n i x s : Nat) (t : Byte) (rest : List Byte),
      (∀ b ∈ pre, 0x80 ≤ b.val) → t.val < 0x80 → n + i = 10 → s = 7 * i → x < 128 ^ i →
      ((pre.length < n ∧ ¬ (i + pre.length = 9 ∧ 1 < t.val) →
          readUvarintLoop n i x s (pre ++ t :: rest) =
            ⟨x + 128 ^ i * groupsValue (pre ++ [t]), none, rest⟩) ∧
       (¬ (pre.length < n ∧ ¬ (i + pre.length = 9 ∧ 1 < t.val)) →
          (readUvarintLoop n i x s (pre ++ t :: rest)).err = some .errOverflow)) := by
  induction pre with
  | nil =>
    intro n i x s t rest _ ht hni hs hx
    subst hs
    cases n with
    | zero => simp [readUvarintLoop]
    | succ n =>
      have hi : i ≤ 9 := by omega
      have hmod : t.val % 128 = t.val := Nat.mod_eq_of_lt ht
      simp only [List.nil_append, List.length_nil, Nat.add_zero, readUvarintLoop, ReadByte, ht,
        if_true, MaxVarintLen64, groupsValue, hmod, Nat.mul_zero]
      constructor
      · intro hc
        have hc2 : ¬ (i = 9 ∧ 1 < t.val) := hc.2
        rw [if_neg (by simpa using hc2), lor_shiftLeft_eq_add x t.val i hx]
        have hbound : x + 128 ^ i * t.val < 2 ^ 64 := by
          rcases Nat.lt_or_ge i 9 with h9 | h9
          · have hp : 128 ^ (i + 1) ≤ 128 ^ 9 := Nat.pow_le_pow_right (by norm_num) (by omega)
            have : x + 128 ^ i * t.val < 128 ^ (i + 1) := by
              rw [pow_succ]; nlinarith
            have h63 : (128 : Nat) ^ 9 < 2 ^ 64 := by norm_num
            omega
          · have hi9 : i = 9 := by omega
            subst hi9
            have ht1 : t.val ≤ 1 := by
              by_contra hgt
              exact hc2 ⟨rfl, by omega⟩
            have hx9 : x < 128 ^ 9 := hx
            have : (128 : Nat) ^ 9 * t.val ≤ 128 ^ 9 * 1 := Nat.mul_le_mul_left _ ht1
            have h64 : (128 : Nat) ^ 9 + 128 ^ 9 * 1 = 2 ^ 64 := by norm_num
            omega
        rw [Nat.mod_eq_of_lt hbound]
      · intro hc
        have hc2 : i = 9 ∧ 1 < t.val := by
          by_contra hneg
          exact hc ⟨Nat.succ_pos _, hneg⟩
        rw [if_pos (by simpa using hc2)]
  | cons b pre ih =>
    intro n i x s t rest hcont ht hni hs hx
    subst hs
    cases n with
    | zero => simp [readUvarintLoop]
    | succ n =>
      have hb : ¬ b.val < 0x80 := by
        have := hcont b (List.mem_cons_self _ _); omega
      have hcont2 : ∀ c ∈ pre, 0x80 ≤ c.val := fun c hc => hcont c (List.mem_cons_of_mem _ hc)
      have hm : b.val % 128 < 128 := Nat.mod_lt _ (by norm_num)
      simp only [List.cons_append, readUvarintLoop, ReadByte, hb, if_false, byte_and_0x7f,
        lor_shiftLeft_eq_add x (b.val % 128) i hx, List.length_cons]
      rcases Nat.lt_or_ge i 9 with h9 | h9
      · have hp : 128 ^ (i + 1) ≤ 128 ^ 9 := Nat.pow_le_pow_right (by norm_num) (by omega)
        have hx2 : x + 128 ^ i * (b.val % 128) < 128 ^ (i + 1) := by
          rw [pow_succ]; nlinarith
        have h63 : (128 : Nat) ^ 9 < 2 ^ 64 := by norm_num
        rw [Nat.mod_eq_of_lt (by omega)]
        have key := ih n (i + 1) (x + 128 ^ i * (b.val % 128)) (7 * i + 7) t rest hcont2 ht
          (by omega) (by ring) hx2
        constructor
        · intro hc
          rw [key.1 ⟨by omega, fun h => hc.2 ⟨by omega, h.2⟩⟩]
          simp only [groupsValue, List.cons_append, pow_succ]
          congr 1
          ring
        · intro hc
          exact key.2 (fun h => hc ⟨by omega, fun h2 => h.2 ⟨by omega, h2.2⟩⟩)
      · have hn : n = 0 := by omega
        subst hn
        constructor
        · intro hc; omega
        · intro _; simp [readUvarintLoop]

theorem encoding_of_terminated (bs : List Byte) (h : terminated bs = true) :
    ∃ pre t rest, bs = pre ++ t :: rest ∧ (∀ b ∈ pre, 0x80 ≤ b.val) ∧ t.val < 0x80 ∧
      encoding bs = pre ++ [t] := by
  induction bs with
  | nil => simp [terminated] at h
  | cons b bs ih =>
    by_cases hb : isTerminator b = true
    · refine ⟨[], b, bs, rfl, by simp, by simpa [isTerminator] using hb, by simp [encoding, hb]⟩
    · have hbs : terminated bs = true := by
        simp only [terminated, List.any_cons, Bool.or_eq_true] at h
        rcases h with h | h
        · exact absurd h hb
        · exact h
      obtain ⟨pre, t, rest, hdec, hpre, ht, henc⟩ := ih hbs
      refine ⟨b :: pre, t, rest, by simp [hdec], ?_, ht, by simp [encoding, hb, henc]⟩
      intro c hc
      rcases List.mem_cons.mp hc with rfl | hc
      · have : ¬ c.val < 0x80 := by simpa [isTerminator] using hb
        omega
      · exact hpre c hc

theorem continuation_of_not_terminated (bs : List Byte) (h : terminated bs = false) :
    ∀ b ∈ bs, 0x80 ≤ b.val := by
  intro b hb
  have hall : ∀ c ∈ bs, isTerminator c = false := by
    simpa [terminated] using h
  have : ¬ b.val < 0x80 := by simpa [isTerminator] using hall b hb
  omega

theorem ReadVarint_of_ReadUvarint (bs : List Byte) :
    ReadVarint bs = ⟨zigzag (ReadUvarint bs).x, (ReadUvarint bs).err, (ReadUvarint bs).rest⟩ := by
  have hnot : ∀ n : Nat, ~~~(n : Int) = -(n : Int) - 1 := by
    intro n
    show Int.not (Int.ofNat n) = _
    simp only [Int.not, Int.negSucc_eq]
    simp; ring
  simp only [ReadVarint, zigzag, Nat.and_one_is_mod, Nat.shiftRight_eq_div_pow, pow_one, hnot]
  by_cases h : (ReadUvarint bs).x % 2 = 0 <;> simp [h]

/-- On a buffer that starts with continuation bytes `pre` and a
terminating byte `t`, `ReadUvarint` succeeds exactly when the encoding is
at most ten bytes long and its value fits in 64 bits. -/
theorem ReadUvarint_terminated (pre : List Byte) (t : Byte) (rest : List Byte)
    (hpre : ∀ b ∈ pre, 0x80 ≤ b.val) (ht : t.val < 0x80) :
    (pre.length < 10 ∧ groupsValue (pre ++ [t]) < 2 ^ 64 →
        ReadUvarint (pre ++ t :: rest) = ⟨groupsValue (pre ++ [t]), none, rest⟩) ∧
    (¬ (pre.length < 10 ∧ groupsValue (pre ++ [t]) < 2 ^ 64) →
        (ReadUvarint (pre ++ t :: rest)).err = some .errOverflow) := by
  have key := readUvarintLoop_terminated pre 10 0 0 0 t rest hpre ht (by norm_num) (by norm_num)
    (by norm_num)
  simp only [Nat.zero_add, pow_zero, Nat.one_mul] at key
  have hmod : t.val % 128 = t.val := Nat.mod_eq_of_lt ht
  have hgv := groupsValue_append pre t
  rw [hmod] at hgv
  have hlt := groupsValue_lt pre
  have hiff : pre.length < 10 →
      (groupsValue (pre ++ [t]) < 2 ^ 64 ↔ ¬ (pre.length = 9 ∧ 1 < t.val)) := by
    intro hlen
    rcases Nat.lt_or_ge pre.length 9 with h9 | h9
    · have hp : 128 ^ (pre.length + 1) ≤ 128 ^ 9 :=
        Nat.pow_le_pow_right (by norm_num) (by omega)
      have hb : groupsValue pre + 128 ^ pre.length * t.val < 128 ^ (pre.length + 1) := by
        rw [pow_succ]; nlinarith
      have h63 : (128 : Nat) ^ 9 < 2 ^ 64 := by norm_num
      constructor
      · intro _ hc; omega
      · intro _; omega
    · have h9e : pre.length = 9 := by omega
      rw [h9e] at hgv hlt
      have h64 : (128 : Nat) ^ 9 * 2 = 2 ^ 64 := by norm_num
      constructor
      · intro hv hc
        have : (128 : Nat) ^ 9 * 2 ≤ 128 ^ 9 * t.val := Nat.mul_le_mul_left _ hc.2
        omega
      · intro hc
        have ht1 : t.val ≤ 1 := by
          by_contra hgt
          exact hc ⟨h9e, by omega⟩
        have : (128 : Nat) ^ 9 * t.val ≤ 128 ^ 9 * 1 := Nat.mul_le_mul_left _ ht1
        omega
  constructor
  · intro hc
    exact key.1 ⟨hc.1, (hiff hc.1).1 hc.2⟩
  · intro hc
    apply key.2
    intro hk
    exact hc ⟨hk.1, (hiff hk.1).2 hk.2⟩

/-- C5, as amended: for every byte sequence the signed-varint decode fails
exactly when no terminating byte is found, when the encoding is longer
than ten bytes, or when the encoded value does not fit in 64 bits; when it
succeeds, the value is the zig-zag decoding of the number built from the
low 7 bits of each byte, least-significant group first, and exactly the
bytes of the encoding are consumed. -/
theorem ReadVarint_fails_iff (bs : List Byte) :
    ((ReadVarint bs).err ≠ none ↔
      (terminated bs = false ∨ 10 < (encoding bs).length ∨ 2 ^ 64 ≤ encodedValue bs)) ∧
    ((ReadVarint bs).err = none →
      (ReadVarint bs).num = zigzag (encodedValue bs) ∧
      (ReadVarint bs).rest = bs.drop (encoding bs).length) := by
  rw [ReadVarint_of_ReadUvarint]
  simp only []
  cases hterm : terminated bs with
  | false =>
    have hne : (ReadUvarint bs).err ≠ none :=
      readUvarintLoop_unterminated _ _ _ _ bs (continuation_of_not_terminated bs hterm)
    exact ⟨⟨fun _ => Or.inl rfl, fun _ => hne⟩, fun h => absurd h hne⟩
  | true =>
    obtain ⟨pre, t, rest, hdec, hpre, ht, henc⟩ := encoding_of_terminated bs hterm
    have key := ReadUvarint_terminated pre t rest hpre ht
    rw [← hdec] at key
    simp only [encodedValue, henc, List.length_append, List.length_singleton]
    by_cases hc : pre.length < 10 ∧ groupsValue (pre ++ [t]) < 2 ^ 64
    · rw [key.1 hc]
      refine ⟨⟨fun h => absurd rfl h, ?_⟩, fun _ => ⟨rfl, ?_⟩⟩
      · intro h
        rcases h with h | h | h
        · exact absurd h (by simp)
        · omega
        · omega
      · simp [hdec]
    · have herr := key.2 hc
      refine ⟨⟨fun _ => ?_, fun _ => by simp [herr]⟩, fun h => by simp [herr] at h⟩
      right
      by_contra hneg
      exact hc ⟨by omega, by omega⟩

/-- C5, as stated, fails: the eleven-byte encoding of zero has a
terminating byte and its encoded value, zero, fits in 64 bits, yet the
decode reports an error. -/
theorem ReadVarint_overlongZero_fails :
    ¬ ((ReadVarint overlongZero).err ≠ none ↔
        (terminated overlongZero = false ∨ 2 ^ 64 ≤ encodedValue overlongZero)) := by
  decide

/-! ### The literal buffer of `doWork` -/

/-- C1, as stated, fails: decoding `[0xFF, 0x00, 0x00, 0x00]` with
`ReadVarint` does not give 127. -/
theorem ReadVarint_literal_not_127 :
    ¬ ((ReadVarint [0xFF, 0x00, 0x00, 0x00]).err = none ∧
        (ReadVarint [0xFF, 0x00, 0x00, 0x00]).num = 127) := by
  decide

/-- C1, as amended: decoding `[0xFF, 0x00, 0x00, 0x00]` with `ReadVarint`
does not fail, the unsigned number read from the two bytes `0xFF, 0x00` is
127, and the decoded signed value is its zig-zag decoding, -64. -/
theorem ReadVarint_literal :
    (ReadVarint [0xFF, 0x00, 0x00, 0x00]).err = none ∧
    (ReadUvarint [0xFF, 0x00, 0x00, 0x00]).x = 127 ∧
    (ReadVarint [0xFF, 0x00, 0x00, 0x00]).num = -64 := by
  decide

/-! ### Runs of `main` -/

/-- C3: a run of `main` in which the exporter is constructed starts
exactly 11 spans: first the span "main", from the background context and
so without parent, then 10 spans "doWork", each with the span "main" as
its parent. -/
theorem main_starts_eleven_spans (draw : Bool) :
    (main draw none).spans.length = 11 ∧
    (main draw none).log.filter Event.isStartSpan =
      .StartSpan 0 "main" none ::
        (List.range 10).map (fun i => Event.StartSpan (i + 1) "doWork" (some 0)) ∧
    (main draw none).spans.head?.bind Span.nameAndParent = some ("main", none) ∧
    (main draw none).spans.tail.length = 10 ∧
    ∀ c ∈ (main draw none).spans.tail,
      c.nameAndParent =
        some ("doWork", (main draw none).spans.head?.map (fun r => r.spanContext.SpanID)) := by
  cases draw <;> decide

/-- C7: when exporter construction fails, `main` does nothing but the
fatal log and the exit with status 1: the exporter is not registered, no
span exists, and the log holds no other call (no `StartSpan`, nothing of
`doWork`, no `Flush`). -/
theorem main_exporter_failure (draw : Bool) (err : String) :
    (main draw (some err)).exit = some 1 ∧
    (main draw (some err)).log = [.Fatalf ("Failed to create jaeger exporter. Error " ++ err)] ∧
    (main draw (some err)).registered = false ∧
    (main draw (some err)).spans = [] ∧
    (main draw (some err)).je = ⟨[], []⟩ := by
  simp [main, Fatalf, World.record, World.init]

/-- C8 on the code: in a run of `main` in which the exporter is
constructed, `Flush` is called before the root span is ended; the flush
sends on the 10 "doWork" spans only, and the root span "main" reaches the
exporter after the flush and stays in its buffer. -/
theorem main_flush_before_root_end (draw : Bool) :
    (main draw none).log.indexOf .Flush < (main draw none).log.indexOf (.End 0) ∧
    (main draw none).log.indexOf .Flush < (main draw none).log.indexOf (.ExportSpan 0) ∧
    (main draw none).je.sent.map (fun d => d.Name) = List.replicate 10 "doWork" ∧
    (main draw none).je.buffered.map (fun d => (d.Name, d.SpanContext.SpanID)) = [("main", 0)] := by
  cases draw <;> decide

/-- C9: with the buffer `[0xFF, 0x00, 0x00, 0x00]` the decode consumes two
bytes and returns -64 without error, and in a run of `main` all 10 calls
of `doWork` log the same calls, none of them a `SetStatus`; each of the 10
spans ends with the default status and the single annotation
`("bytes to int", -64)`. -/
theorem main_doWork_calls (draw : Bool) :
    ReadVarint workBytes = ⟨-64, none, [0x00, 0x00]⟩ ∧
    workBytes.length - (ReadVarint workBytes).rest.length = 2 ∧
    (main draw none).log =
      [.RegisterExporter, .ApplyConfig, .StartSpan 0 "main" none] ++
      (List.range 10).flatMap (fun i =>
        [Event.StartSpan (i + 1) "doWork" (some 0), .Println "doing busy work", .Sleep 80,
          .Annotate (i + 1) ⟨"Invoking doWork", [⟨"bytes to int", .int64 (-64)⟩]⟩,
          .Sleep 20, .End (i + 1), .ExportSpan (i + 1)]) ++
      [.Flush, .End 0, .ExportSpan 0] ∧
    (main draw none).log.filter Event.isSetStatus = [] ∧
    (main draw none).spans.tail.length = 10 ∧
    (∀ s ∈ (main draw none).spans.tail,
      s.status = some ⟨StatusCodeOK, ""⟩ ∧
      s.annotations = [⟨"Invoking doWork", [⟨"bytes to int", .int64 (-64)⟩]⟩] ∧
      s.ended = true) ∧
    (main draw none).je.sent.map (fun d => (d.Name, d.Status, d.Annotations)) =
      List.replicate 10
        ("doWork", ⟨StatusCodeOK, ""⟩, [⟨"Invoking doWork", [⟨"bytes to int", .int64 (-64)⟩]⟩]) := by
  cases draw <;> decide

/-- C4: in every run of `main`, with or without an exporter, each span
that was created has `End` called on it exactly once and is ended, and a
span with a parent is ended before its parent is; with an exporter the
root span is ended after each of the 10 "doWork" spans; and every call of
`doWork`, on any buffer and from any state, adds exactly one `End` call
for the span it started. -/
theorem main_ends_every_span_once (draw : Bool) (newExporterErr : Option String) :
    (∀ id, id < (main draw newExporterErr).spans.length →
      (main draw newExporterErr).log.count (.End id) = 1) ∧
    (∀ s ∈ (main draw newExporterErr).spans, s.ended = true) ∧
    (∀ c ∈ (main draw newExporterErr).spans, ∀ p ∈ c.parent,
      endsBefore (main draw newExporterErr) c.spanContext.SpanID p) ∧
    (∀ id, id < 11 → 1 ≤ id → endsBefore (main draw none) id 0) ∧
    (∀ (bytes : List Byte) (ctx : Context) (w : World),
      (doWorkOn bytes ctx w).log.count (.End w.spans.length) =
        w.log.count (.End w.spans.length) + 1) := by
  refine ⟨?_, ?_, ?_, ?_, ?_⟩
  · cases newExporterErr with
    | some err => simp [main, Fatalf, World.record, World.init]
    | none => cases draw <;> decide
  · cases newExporterErr with
    | some err => simp [main, Fatalf, World.record, World.init]
    | none => cases draw <;> decide
  · cases newExporterErr with
    | some err => simp [main, Fatalf, World.record, World.init]
    | none => cases draw <;> decide
  · cases draw <;> decide
  · intro bytes ctx w
    rw [doWorkOn_log]
    cases he : (ReadVarint bytes).err <;>
      by_cases hc : shouldSample ctx w = true ∧ w.registered = true <;>
      simp [workCalls, List.count_cons, he, hc]

/-! ### Calls of `doWork` on any buffer -/

/-- C2: when the decode of the buffer fails with error `e`, `doWork` calls
`SetStatus` with `StatusCodeUnknown` and the text of `e` before it
annotates and ends the span; the process is not terminated (`doWork`
returns to its caller); and on a recording span that status is the one
the span has when it has ended and the one in the span data handed to a
registered exporter. -/
theorem doWorkOn_failure_status (bytes : List Byte) (ctx : Context) (w : World) (e : GoError)
    (hfail : (ReadVarint bytes).err = some e) :
    (doWorkOn bytes ctx w).log =
      w.log ++
        [.StartSpan w.spans.length "doWork" (ctx.map (fun p => p.SpanID)),
          .Println "doing busy work", .Sleep 80,
          .SetStatus w.spans.length ⟨StatusCodeUnknown, e.Error⟩,
          .Annotate w.spans.length (workNote (ReadVarint bytes).num),
          .Sleep 20, .End w.spans.length] ++
        (if shouldSample ctx w = true ∧ w.registered = true
          then [.ExportSpan w.spans.length] else []) ∧
    (doWorkOn bytes ctx w).exit = w.exit ∧
    (shouldSample ctx w = true →
      (doWorkOn bytes ctx w).spans =
        w.spans ++
          [{ spanContext := ⟨w.spans.length, true⟩
             data := some ⟨⟨w.spans.length, true⟩, ctx.map (fun p => p.SpanID), "doWork",
               ⟨StatusCodeUnknown, e.Error⟩, []⟩
             annotations := [workNote (ReadVarint bytes).num]
             ended := true }] ∧
      (w.registered = true →
        (doWorkOn bytes ctx w).je.buffered =
          w.je.buffered ++
            [⟨⟨w.spans.length, true⟩, ctx.map (fun p => p.SpanID), "doWork",
              ⟨StatusCodeUnknown, e.Error⟩, [workNote (ReadVarint bytes).num]⟩])) := by
  refine ⟨?_, (doWorkOn_frame bytes ctx w).1, fun hs => ⟨?_, fun hr => ?_⟩⟩
  · rw [doWorkOn_log]; simp [workCalls, hfail]
  · rw [doWorkOn_spans bytes ctx w hs]; simp [workSpan, workStatus, hfail]
  · rw [doWorkOn_je bytes ctx w hs]; simp [workSpanData, workStatus, hfail, hr]

/-- C2 at the empty buffer, on which the decode fails with `io.EOF`, from
the state in which `main` starts its root span. -/
theorem doWorkOn_failure_status_witness :
    (ReadVarint []).err = some .EOF ∧
    shouldSample Background readyWorld = true ∧
    readyWorld.registered = true ∧
    (doWorkOn [] Background readyWorld).je.buffered =
      readyWorld.je.buffered ++
        [⟨⟨readyWorld.spans.length, true⟩, Background.map (fun p => p.SpanID), "doWork",
          ⟨StatusCodeUnknown, GoError.EOF.Error⟩, [workNote (ReadVarint []).num]⟩] :=
  ⟨by decide, by decide, by decide,
    ((doWorkOn_failure_status [] Background readyWorld .EOF (by decide)).2.2 (by decide)).2
      (by decide)⟩

/-- C6: when the decode of the buffer succeeds with value `n`, `doWork`
calls `Annotate` on its span with the description "Invoking doWork" and
the int64 attribute "bytes to int" of value `n`, and it does so before the
span is ended, which is the last call on the span; on a recording span the
ended span, and the span data handed to a registered exporter, hold that
annotation. -/
theorem doWorkOn_success_annotates (bytes : List Byte) (ctx : Context) (w : World) (n : Int)
    (hok : (ReadVarint bytes).err = none) (hn : (ReadVarint bytes).num = n) :
    (doWorkOn bytes ctx w).log =
      w.log ++
        [.StartSpan w.spans.length "doWork" (ctx.map (fun p => p.SpanID)),
          .Println "doing busy work", .Sleep 80,
          .Annotate w.spans.length ⟨"Invoking doWork", [Int64Attribute "bytes to int" n]⟩,
          .Sleep 20, .End w.spans.length] ++
        (if shouldSample ctx w = true ∧ w.registered = true
          then [.ExportSpan w.spans.length] else []) ∧
    (shouldSample ctx w = true →
      (∃ s, (doWorkOn bytes ctx w).spans[w.spans.length]? = some s ∧
        s.annotations = [⟨"Invoking doWork", [Int64Attribute "bytes to int" n]⟩] ∧
        s.ended = true) ∧
      (w.registered = true →
        ∃ sd, (doWorkOn bytes ctx w).je.buffered = w.je.buffered ++ [sd] ∧
          sd.SpanContext.SpanID = w.spans.length ∧
          sd.Annotations = [⟨"Invoking doWork", [Int64Attribute "bytes to int" n]⟩])) := by
  subst hn
  refine ⟨?_, fun hs => ⟨?_, fun hr => ?_⟩⟩
  · rw [doWorkOn_log]; simp [workCalls, workNote, Int64Attribute, hok]
  · rw [doWorkOn_spans bytes ctx w hs]
    exact ⟨_, getElem?_append_length _ _, rfl, rfl⟩
  · rw [doWorkOn_je bytes ctx w hs]
    exact ⟨workSpanData w.spans.length (ctx.map (fun p => p.SpanID)) (ReadVarint bytes),
      by simp [hr], rfl, rfl⟩

/-- C6 at the buffer of `doWork`, decoded to -64, from the state in which
`main` starts its root span. -/
theorem doWorkOn_success_annotates_witness :
    (ReadVarint workBytes).err = none ∧ (ReadVarint workBytes).num = -64 ∧
    shouldSample Background readyWorld = true ∧
    ∃ s, (doWorkOn workBytes Background readyWorld).spans[readyWorld.spans.length]? = some s ∧
      s.annotations = [⟨"Invoking doWork", [Int64Attribute "bytes to int" (-64)]⟩] ∧
      s.ended = true :=
  ⟨by decide, by decide, by decide,
    ((doWorkOn_success_annotates workBytes Background readyWorld (-64) (by decide)
      (by decide)).2 (by decide)).1⟩

/-- C10: on every buffer, whether the decode succeeds or fails, `doWork`
makes exactly one `Annotate` call on its span, with the description
"Invoking doWork" and the single int64 attribute "bytes to int" holding
the number the decode returned; the call comes after the `SetStatus` call
of the failure path; a recording span ends with exactly that one
annotation and with the status it had before the annotation; and
`Annotate` changes the status of no span. -/
theorem doWorkOn_annotates_once (bytes : List Byte) (ctx : Context) (w : World) :
    (doWorkOn bytes ctx w).log =
      w.log ++
        [.StartSpan w.spans.length "doWork" (ctx.map (fun p => p.SpanID)),
          .Println "doing busy work", .Sleep 80] ++
        (match (ReadVarint bytes).err with
          | some e => [Event.SetStatus w.spans.length ⟨StatusCodeUnknown, e.Error⟩]
          | none => []) ++
        [.Annotate w.spans.length
            ⟨"Invoking doWork", [⟨"bytes to int", .int64 (ReadVarint bytes).num⟩]⟩,
          .Sleep 20, .End w.spans.length] ++
        (if shouldSample ctx w = true ∧ w.registered = true
          then [.ExportSpan w.spans.length] else []) ∧
    (shouldSample ctx w = true →
      ∃ s, (doWorkOn bytes ctx w).spans[w.spans.length]? = some s ∧
        s.annotations = [⟨"Invoking doWork", [⟨"bytes to int", .int64 (ReadVarint bytes).num⟩]⟩] ∧
        s.status = some (match (ReadVarint bytes).err with
          | some e => ⟨StatusCodeUnknown, e.Error⟩
          | none => ⟨StatusCodeOK, ""⟩)) ∧
    (∀ (span : SpanID) (attributes : List Attribute) (str : String) (v : World),
      (Annotate span attributes str v).spans.map Span.status = v.spans.map Span.status) := by
  refine ⟨?_, fun hs => ?_, fun span attributes str v => ?_⟩
  · rw [doWorkOn_log]
    cases he : (ReadVarint bytes).err <;> simp [workCalls, workNote, he]
  · rw [doWorkOn_spans bytes ctx w hs]
    refine ⟨_, getElem?_append_length _ _, rfl, ?_⟩
    cases he : (ReadVarint bytes).err <;> simp [workSpan, workStatus, Span.status, he]
  · simp only [Annotate, World.record]
    apply modifyAt_map_eq
    intro a
    cases hd : a.data <;> simp [Span.status, hd]

/-- C10 on the failure path: at the one-byte buffer `[0x81]`, on which the
decode fails with `io.ErrUnexpectedEOF` and returns -1, from the state in
which `main` starts its root span. -/
theorem doWorkOn_annotates_once_witness :
    (ReadVarint [0x81]).err = some .ErrUnexpectedEOF ∧
    shouldSample Background readyWorld = true ∧
    ∃ s, (doWorkOn [0x81] Background readyWorld).spans[readyWorld.spans.length]? = some s ∧
      s.annotations =
        [⟨"Invoking doWork", [⟨"bytes to int", .int64 (ReadVarint [0x81]).num⟩]⟩] ∧
      s.status = some (match (ReadVarint [0x81]).err with
        | some e => ⟨StatusCodeUnknown, e.Error⟩
        | none => ⟨StatusCodeOK, ""⟩) :=
  ⟨by decide, by decide, (doWorkOn_annotates_once [0x81] Background readyWorld).2.1 (by decide)⟩

end OpencensusJaeger
